import Mathlib

/-!
Shallow embedding of the Smart-Payment-Orchestration decision engine
(`src/orchestrator/index.js`): fee computation, per-processor evaluation,
and the `decide` selection function, together with the configuration data
model (processor catalog and rule configuration).

JavaScript numbers are modelled as exact rationals, except where the code
can produce non-finite values (the unguarded division by the baseline fee):
those spots use `JSNum`, a rational extended with NaN and the two
infinities, with the IEEE-style propagation rules of the operations the
code actually performs.  JavaScript exceptions (the `TypeError` thrown by
reading a property of `undefined`) are modelled with `Except`.
-/

namespace Orchestrator

/-- A JavaScript number as used by the engine: a finite (exact) rational,
NaN, or one of the two infinities. -/
inductive JSNum where
  | fin (q : ℚ)
  | nan
  | inf
  | negInf
deriving DecidableEq, Repr

/-- JavaScript division `a / b` of two finite numbers: finite quotient when
`b ≠ 0`, otherwise NaN (`0/0`) or a signed infinity. -/
def jdiv (a b : ℚ) : JSNum :=
  if b = 0 then (if a = 0 then .nan else if 0 < a then .inf else .negInf)
  else .fin (a / b)

/-- JavaScript comparison `x >= t` against a finite threshold: false when
`x` is NaN. -/
def jsGeConst (x : JSNum) (t : ℚ) : Bool :=
  match x with
  | .fin q => decide (t ≤ q)
  | .nan => false
  | .inf => true
  | .negInf => false

/-- JavaScript `Math.max(0, x)`. -/
def jmax0 : JSNum → JSNum
  | .fin q => .fin (max 0 q)
  | .nan => .nan
  | .inf => .inf
  | .negInf => .fin 0

/-- JavaScript multiplication `w * x` of a finite weight with a possibly
non-finite number (`0 * ±Infinity = NaN`). -/
def jscale (w : ℚ) : JSNum → JSNum
  | .fin q => .fin (w * q)
  | .nan => .nan
  | .inf => if 0 < w then .inf else if w < 0 then .negInf else .nan
  | .negInf => if 0 < w then .negInf else if w < 0 then .inf else .nan

/-- JavaScript addition `x + r` of a possibly non-finite number with a
finite one. -/
def jaddFin (x : JSNum) (r : ℚ) : JSNum :=
  match x with
  | .fin q => .fin (q + r)
  | .nan => .nan
  | .inf => .inf
  | .negInf => .negInf

/-- JavaScript subtraction on possibly non-finite numbers. -/
def jsub : JSNum → JSNum → JSNum
  | .nan, _ => .nan
  | _, .nan => .nan
  | .fin a, .fin b => .fin (a - b)
  | .fin _, .inf => .negInf
  | .fin _, .negInf => .inf
  | .inf, .fin _ => .inf
  | .negInf, .fin _ => .negInf
  | .inf, .negInf => .inf
  | .negInf, .inf => .negInf
  | .inf, .inf => .nan
  | .negInf, .negInf => .nan

/-- `x <= 0` on a JavaScript number (false for NaN): the test a sort
comparator result undergoes. -/
def jsNonPos : JSNum → Bool
  | .fin q => decide (q ≤ 0)
  | .nan => false
  | .inf => false
  | .negInf => true

/-- Is this JavaScript number finite? -/
def isFin : JSNum → Bool
  | .fin _ => true
  | _ => false

/-- The rational value of a finite JavaScript number (0 otherwise). -/
def finVal : JSNum → ℚ
  | .fin q => q
  | _ => 0

/-- JavaScript `Math.round` on a finite value: round half toward
positive infinity, i.e. `⌊x + 1/2⌋`. -/
def jsRound (q : ℚ) : ℤ := ⌊q + 1/2⌋

/-- Left-pad the fractional part of `toFixed(3)` to three digits. -/
def pad3 (n : ℕ) : String :=
  if n < 10 then "00" ++ toString n
  else if n < 100 then "0" ++ toString n
  else toString n

/-- JavaScript `Number.prototype.toFixed(3)`. -/
def toFixed3 : JSNum → String
  | .nan => "NaN"
  | .inf => "Infinity"
  | .negInf => "-Infinity"
  | .fin q =>
    let s := if q < 0 then "-" else ""
    let m := (⌊|q| * 1000 + 1/2⌋).toNat
    s ++ toString (m / 1000) ++ "." ++ pad3 (m % 1000)

/-- A payment processor record, as read from the processor catalog
(`processors.json`).  `fee_percentage` and `fee_flat_cents` are optional in
the JSON and defaulted to 0 by the code (`processor.fee_percentage || 0`);
`requires_whitelist` is optional and a missing value behaves as `false`. -/
structure Processor where
  name : String
  fee_percentage : Option ℚ := none
  fee_flat_cents : Option ℚ := none
  settlement_time_days : ℚ := 0
  success_rate : ℚ := 0
  supports_card : Bool := false
  supports_ach : Bool := false
  instant_payout : Bool := false
  requires_whitelist : Bool := false
deriving DecidableEq, Repr

/-- The merchant sub-object of a payment request.  `whitelisted_for` is
optional; the code tests `merchant.whitelisted_for &&
merchant.whitelisted_for.includes(name)`, so a missing list behaves as
"not whitelisted for anything". -/
structure Merchant where
  id : String := ""
  cash_flow_sensitivity : ℚ := 0
  whitelisted_for : Option (List String) := none
deriving DecidableEq, Repr

/-- A payment request as handed to the engine. -/
structure Payment where
  amount_cents : ℚ
  currency : String := "usd"
  payment_method : String := "card"
  merchant : Merchant
  metadata : List (String × String) := []
deriving DecidableEq, Repr

/-- The strict-rule thresholds of the rule configuration (`rules.json`). -/
structure RuleThresholds where
  min_relative_savings_to_switch : ℚ
  min_success_rate : ℚ
deriving DecidableEq, Repr

/-- The scoring weights of the rule configuration (`rules.json`). -/
structure ScoringWeights where
  fee_weight : ℚ
  settlement_weight : ℚ
  risk_weight : ℚ
  switch_bonus : ℚ
  instant_payout_bonus : ℚ
  slow_settlement_penalty : ℚ
deriving DecidableEq, Repr

/-- The rule configuration. -/
structure Rules where
  rule_thresholds : RuleThresholds
  scoring_weights : ScoringWeights
deriving DecidableEq, Repr

/-- The evaluation record produced by `evaluateProcessor` for one
candidate processor. -/
structure Evaluation where
  processor : Processor
  fee_cents : ℤ
  saving_pct_vs_stripe : JSNum
  settlement_score : ℚ
  risk_score : ℚ
  score : JSNum
  passesStrict : Bool
deriving DecidableEq, Repr

/-- The decision record returned by `decide`. -/
structure Decision where
  chosen : String
  expected_net_cents : ℤ
  details : Evaluation
  reason : String
deriving DecidableEq, Repr

/-- A JavaScript runtime exception.  The only one this code can raise is a
`TypeError` from reading a property of `undefined` (missing baseline
processor, or indexing into an empty evaluations array). -/
inductive JsError where
  | typeError
deriving DecidableEq, Repr

/-- `feeAmountCents(processor, payment)`:
`Math.round(payment.amount_cents * (processor.fee_percentage || 0)
+ (processor.fee_flat_cents || 0))`. -/
def feeAmountCents (processor : Processor) (payment : Payment) : ℤ :=
  let pct := processor.fee_percentage.getD 0
  let flat := processor.fee_flat_cents.getD 0
  jsRound (payment.amount_cents * pct + flat)

/-- `supportsMethod(processor, method)`: capability predicate; any method
other than `"card"` / `"ach"` is unsupported. -/
def supportsMethod (processor : Processor) (method : String) : Bool :=
  if method = "card" then processor.supports_card
  else if method = "ach" then processor.supports_ach
  else false

/-- `evaluateProcessor(processor, payment)`: score one candidate.  The
baseline lookup `processors.find(p => p.name === "Stripe")` yields
`undefined` when the catalog has no processor named `"Stripe"`, and the
subsequent property read throws a `TypeError`.  The saving division is
performed exactly as written, with no guard against a zero baseline fee. -/
def evaluateProcessor (processors : List Processor) (rules : Rules)
    (processor : Processor) (payment : Payment) : Except JsError Evaluation :=
  let fee := feeAmountCents processor payment
  match processors.find? (fun p => p.name == "Stripe") with
  | none => .error .typeError
  | some stripe =>
    let stripeFee := feeAmountCents stripe payment
    let saving_pct_vs_stripe := jdiv ((stripeFee : ℚ) - (fee : ℚ)) (stripeFee : ℚ)
    let settlement_factor :=
      max 0 (1 - processor.settlement_time_days * payment.merchant.cash_flow_sensitivity / 5)
    let settlement_score := min 1 (max 0 settlement_factor)
    let risk_score := processor.success_rate
    let bonus1 :=
      if jsGeConst saving_pct_vs_stripe rules.rule_thresholds.min_relative_savings_to_switch
      then rules.scoring_weights.switch_bonus else 0
    let bonus2 := bonus1 +
      (if processor.instant_payout then rules.scoring_weights.instant_payout_bonus else 0)
    let bonus := bonus2 -
      (if (0.85 : ℚ) < payment.merchant.cash_flow_sensitivity ∧ 1 < processor.settlement_time_days
       then rules.scoring_weights.slow_settlement_penalty else 0)
    let score := jaddFin (jscale rules.scoring_weights.fee_weight (jmax0 saving_pct_vs_stripe))
      (rules.scoring_weights.settlement_weight * settlement_score
        + rules.scoring_weights.risk_weight * risk_score + bonus)
    let passesStrict :=
      decide (rules.rule_thresholds.min_success_rate ≤ processor.success_rate)
      && (!processor.requires_whitelist
          || (match payment.merchant.whitelisted_for with
              | some wl => wl.contains processor.name
              | none => false))
    .ok { processor, fee_cents := fee, saving_pct_vs_stripe, settlement_score,
          risk_score, score, passesStrict }

/-- Insert an element into a list, keeping it before the first element `y`
with `le x y`; the building block of the stable sort. -/
def jsInsert (le : α → α → Bool) (x : α) : List α → List α
  | [] => [x]
  | y :: ys => if le x y then x :: y :: ys else y :: jsInsert le x ys

/-- Stable sort with respect to `le a b` = "a may stay before b", i.e.
`comparator(a, b) <= 0` for the JavaScript comparator: `Array.prototype.sort`
is stable and, for a consistent comparator, produces exactly this list. -/
def jsSort (le : α → α → Bool) : List α → List α
  | [] => []
  | x :: xs => jsInsert le x (jsSort le xs)

/-- "May stay before" for a numeric JavaScript comparator
`(a, b) => f(b) - f(a)` (descending order in `f`). -/
def leBy (f : α → ℚ) (a b : α) : Bool := decide (f b - f a ≤ 0)

/-- The fallback comparator `(a, b) => b.processor.success_rate -
a.processor.success_rate`, as a "may stay before" test. -/
def fallbackLe : Evaluation → Evaluation → Bool :=
  leBy (fun e => e.processor.success_rate)

/-- The viable-path comparator `(a, b) => b.score - a.score`, as a "may
stay before" test; the scores may be non-finite. -/
def scoreLe (a b : Evaluation) : Bool := jsNonPos (jsub b.score a.score)

/-- Step 1 of `decide`: the catalog processors supporting the payment
method. -/
def candidatesOf (processors : List Processor) (payment : Payment) : List Processor :=
  processors.filter (fun p => supportsMethod p payment.payment_method)

/-- `candidates.map(p => evaluateProcessor(p, payment))`, with a thrown
exception propagating from the leftmost failing call. -/
def evalAll (processors : List Processor) (rules : Rules) (payment : Payment) :
    List Processor → Except JsError (List Evaluation)
  | [] => .ok []
  | p :: rest =>
    match evaluateProcessor processors rules p payment with
    | .error e => .error e
    | .ok ev =>
      match evalAll processors rules payment rest with
      | .error e => .error e
      | .ok evs => .ok (ev :: evs)

/-- Step 2 of `decide`: the evaluations of all candidates. -/
def evaluationsOf (processors : List Processor) (rules : Rules) (payment : Payment) :
    Except JsError (List Evaluation) :=
  evalAll processors rules payment (candidatesOf processors payment)

/-- Step 3 of `decide`: the evaluations passing the strict rules. -/
def viableOf (evaluations : List Evaluation) : List Evaluation :=
  evaluations.filter (fun e => e.passesStrict)

/-- The fallback-branch reason string. -/
def fallbackReason : String :=
  "No candidate passed strict constraints — falling back to highest success_rate"

/-- The winning-branch reason string:
`Selected by scoring rules (score=${winner.score.toFixed(3)})`. -/
def scoreReason (s : JSNum) : String :=
  "Selected by scoring rules (score=" ++ toFixed3 s ++ ")"

/-- `decide(payment)`: filter candidates by method support, evaluate them,
keep the strict-rule passers; if none pass, sort all evaluations by
success rate descending and take the first (indexing an empty array throws
a `TypeError` downstream); otherwise sort the viable ones by score
descending and take the first. -/
def decide (processors : List Processor) (rules : Rules) (payment : Payment) :
    Except JsError Decision :=
  match evaluationsOf processors rules payment with
  | .error e => .error e
  | .ok evaluations =>
    let viable := viableOf evaluations
    if viable.length = 0 then
      match (jsSort fallbackLe evaluations).head? with
      | none => .error .typeError
      | some fallback =>
        .ok { chosen := fallback.processor.name,
              expected_net_cents :=
                jsRound (payment.amount_cents - ((feeAmountCents fallback.processor payment : ℤ) : ℚ)),
              details := fallback,
              reason := fallbackReason }
    else
      match (jsSort scoreLe viable).head? with
      | none => .error .typeError
      | some winner =>
        .ok { chosen := winner.processor.name,
              expected_net_cents :=
                jsRound (payment.amount_cents - ((feeAmountCents winner.processor payment : ℤ) : ℚ)),
              details := winner,
              reason := scoreReason winner.score }

/-! Concrete configuration values used by the scenarios. -/

/-- The baseline processor of the default catalog: Stripe. -/
def procStripe : Processor :=
  { name := "Stripe", fee_percentage := some 0.02, fee_flat_cents := some 30,
    settlement_time_days := 2, success_rate := 0.98,
    supports_card := true, supports_ach := true, instant_payout := false }

/-- LocalProcessorA of the default catalog. -/
def procLocalA : Processor :=
  { name := "LocalProcessorA", fee_percentage := some 0.025, fee_flat_cents := some 25,
    settlement_time_days := 1, success_rate := 0.965,
    supports_card := true, supports_ach := false, instant_payout := false }

/-- FastPayout of the default catalog. -/
def procFastPayout : Processor :=
  { name := "FastPayout", fee_percentage := some 0.034, fee_flat_cents := some 10,
    settlement_time_days := 0, success_rate := 0.96,
    supports_card := true, supports_ach := false, instant_payout := true }

/-- ACHProvider of the default catalog. -/
def procACHProvider : Processor :=
  { name := "ACHProvider", fee_percentage := some 0.008, fee_flat_cents := some 25,
    settlement_time_days := 3, success_rate := 0.99,
    supports_card := false, supports_ach := true, instant_payout := false }

/-- Modelled from the spec: the default processor catalog.  The file
`src/jsons/processors.json` is not among the sources; its entries are taken
from the spec's and README's default-processors table (Stripe,
LocalProcessorA, FastPayout, ACHProvider). -/
def defaultProcessors : List Processor :=
  [procStripe, procLocalA, procFastPayout, procACHProvider]

/-- Modelled from the spec: the default rule configuration.  The file
`src/jsons/rules.json` is not among the sources; its thresholds and weights
are taken from the spec's and README's rules table. -/
def rulesDefault : Rules :=
  { rule_thresholds :=
      { min_relative_savings_to_switch := 0.02, min_success_rate := 0.90 },
    scoring_weights :=
      { fee_weight := 10, settlement_weight := 4, risk_weight := 6,
        switch_bonus := 1.5, instant_payout_bonus := 1.0,
        slow_settlement_penalty := 2.0 } }

/-- The two-processor catalog of Scenario A. -/
def catalogA : List Processor := [procStripe, procLocalA]

/-- The payment of Scenario A: 1250 cents by card, merchant cash-flow
sensitivity 0.7. -/
def paymentA : Payment :=
  { amount_cents := 1250, currency := "usd", payment_method := "card",
    merchant := { id := "m_1", cash_flow_sensitivity := 0.7 } }

/-- The rule configuration of Scenario B: `min_success_rate` raised to
0.99, above every processor's success rate. -/
def rulesB : Rules :=
  { rulesDefault with
    rule_thresholds := { rulesDefault.rule_thresholds with min_success_rate := 0.99 } }

/-- The payment of Scenario D: method `"wire"`, supported by no
processor. -/
def wirePayment : Payment := { paymentA with payment_method := "wire" }

/-- The spec's fee-rounding contract, stated from its words: standard
round-half-up. -/
def roundHalfUp (q : ℚ) : ℤ := ⌊q + 1/2⌋

/-- A whitelist-gated processor (Scenario C's `GatedFast`): high success
rate, card support, `requires_whitelist` set. -/
def procGated : Processor :=
  { name := "GatedFast", fee_percentage := some 0.02, fee_flat_cents := some 30,
    settlement_time_days := 1, success_rate := 0.99,
    supports_card := true, supports_ach := false, instant_payout := false,
    requires_whitelist := true }

/-- A Stripe entry that does not take cards, so that a card payment leaves
only the gated processor as a candidate. -/
def stripeAchOnly : Processor := { procStripe with supports_card := false }

/-- A catalog in which the only card-capable processor is whitelist-gated. -/
def catalogGated : List Processor := [stripeAchOnly, procGated]

/-- A Stripe entry whose fee is identically zero, making the baseline fee
of every evaluation zero. -/
def zeroFeeStripe : Processor :=
  { name := "Stripe", fee_percentage := some 0, fee_flat_cents := some 0,
    settlement_time_days := 0, success_rate := 0.98,
    supports_card := true, supports_ach := true, instant_payout := false }

/-- A clone of LocalProcessorA under another name: it evaluates to exactly
the same score, producing a tie. -/
def procLocalB : Processor := { procLocalA with name := "LocalProcessorB" }

/-- A catalog containing two processors with identical scores. -/
def catalogTie : List Processor := [procStripe, procLocalA, procLocalB]

/-- A placeholder evaluation, used only to totalize the extraction of a
concrete evaluation list from an `Except` value. -/
def dummyEvaluation : Evaluation :=
  { processor := procStripe, fee_cents := 0, saving_pct_vs_stripe := .nan,
    settlement_score := 0, risk_score := 0, score := .nan, passesStrict := false }

/-- The concrete evaluation list of Scenario A. -/
def evalsA : List Evaluation :=
  match evaluationsOf catalogA rulesDefault paymentA with
  | .ok es => es
  | .error _ => []

/-- The concrete evaluation list of Scenario B. -/
def evalsB : List Evaluation :=
  match evaluationsOf catalogA rulesB paymentA with
  | .ok es => es
  | .error _ => []

/-- The concrete evaluation list of the tie scenario. -/
def evalsT : List Evaluation :=
  match evaluationsOf catalogTie rulesDefault paymentA with
  | .ok es => es
  | .error _ => []

/-- The concrete evaluation of Stripe in Scenario A. -/
def evalStripeA : Evaluation :=
  match evaluateProcessor catalogA rulesDefault procStripe paymentA with
  | .ok e => e
  | .error _ => dummyEvaluation

/-- The first element a list would start with after a stable descending
sort: the first occurrence of a maximal element. -/
def firstBestBy (le : α → α → Bool) : List α → Option α
  | [] => none
  | x :: xs =>
    match firstBestBy le xs with
    | none => some x
    | some y => if le x y then some x else some y

/-! Lemmas about the stable sort and the selection it induces. -/

theorem jsInsert_head (le : α → α → Bool) (x : α) (l : List α) :
    (jsInsert le x l).head? =
      some (match l with | [] => x | y :: _ => if le x y then x else y) := by
  cases l with
  | nil => rfl
  | cons y ys =>
    simp only [jsInsert]
    cases hle : le x y <;> simp [hle]

theorem jsSort_head (le : α → α → Bool) (l : List α) :
    (jsSort le l).head? = firstBestBy le l := by
  induction l with
  | nil => rfl
  | cons x xs ih =>
    simp only [jsSort, firstBestBy, jsInsert_head]
    cases h : jsSort le xs with
    | nil =>
      rw [← ih, h]
      rfl
    | cons y ys =>
      rw [← ih, h]
      cases hle : le x y <;> simp [hle]

theorem mem_jsInsert {a x : α} (le : α → α → Bool) (l : List α) :
    a ∈ jsInsert le x l ↔ a = x ∨ a ∈ l := by
  induction l with
  | nil => simp [jsInsert]
  | cons y ys ih =>
    cases hle : le x y
    · simp only [jsInsert, hle, Bool.false_eq_true, if_false, List.mem_cons, ih]
      tauto
    · simp [jsInsert, hle, List.mem_cons]

theorem mem_jsSort {a : α} (le : α → α → Bool) (l : List α) :
    a ∈ jsSort le l ↔ a ∈ l := by
  induction l with
  | nil => simp [jsSort]
  | cons x xs ih =>
    simp only [jsSort, mem_jsInsert, ih, List.mem_cons]

theorem firstBestBy_eq_none {le : α → α → Bool} {l : List α} :
    firstBestBy le l = none ↔ l = [] := by
  cases l with
  | nil => simp [firstBestBy]
  | cons x xs =>
    simp only [firstBestBy]
    cases h : firstBestBy le xs with
    | none => simp
    | some b => cases hle : le x b <;> simp [hle]

theorem leBy_eq_true {f : α → ℚ} {a b : α} : leBy f a b = true ↔ f b ≤ f a := by
  simp [leBy, sub_nonpos]

theorem leBy_eq_false {f : α → ℚ} {a b : α} : leBy f a b = false ↔ f a < f b := by
  simp [leBy, sub_nonpos]

/-- The element selected by a stable descending sort on the key `f` is a
maximal one, and every element before its position in the original list
has a strictly smaller key. -/
theorem firstBestBy_leBy_spec (f : α → ℚ) (l : List α) (y : α)
    (h : firstBestBy (leBy f) l = some y) :
    (∀ x ∈ l, f x ≤ f y) ∧
      ∃ l₁ l₂, l = l₁ ++ y :: l₂ ∧ ∀ x ∈ l₁, f x < f y := by
  induction l generalizing y with
  | nil => simp [firstBestBy] at h
  | cons x xs ih =>
    cases hb : firstBestBy (leBy f) xs with
    | none =>
      have hxs : xs = [] := firstBestBy_eq_none.mp hb
      subst hxs
      simp only [firstBestBy] at h
      cases h
      exact ⟨by simp, [], [], rfl, by simp⟩
    | some b =>
      obtain ⟨hmax, l₁, l₂, heq, hlt⟩ := ih b hb
      cases hle : leBy f x b with
      | true =>
        simp only [firstBestBy, hb, hle, if_true] at h
        cases h
        have hbx : f b ≤ f x := leBy_eq_true.mp hle
        refine ⟨?_, [], xs, rfl, by simp⟩
        intro z hz
        rcases List.mem_cons.mp hz with hz | hz
        · exact hz ▸ le_refl _
        · exact le_trans (hmax z hz) hbx
      | false =>
        simp only [firstBestBy, hb, hle, Bool.false_eq_true, if_false] at h
        have hby : b = y := Option.some.inj h
        subst hby
        have hxb : f x < f b := leBy_eq_false.mp hle
        refine ⟨?_, x :: l₁, l₂, by rw [heq]; rfl, ?_⟩
        · intro z hz
          rcases List.mem_cons.mp hz with hz | hz
          · exact hz ▸ le_of_lt hxb
          · exact hmax z hz
        · intro z hz
          rcases List.mem_cons.mp hz with hz | hz
          · exact hz ▸ hxb
          · exact hlt z hz

theorem jsInsert_congr (le₁ le₂ : α → α → Bool) (x : α) (l : List α)
    (h : ∀ y ∈ l, le₁ x y = le₂ x y) : jsInsert le₁ x l = jsInsert le₂ x l := by
  induction l with
  | nil => rfl
  | cons y ys ih =>
    simp only [jsInsert, h y (List.mem_cons_self y ys)]
    cases hle : le₂ x y
    · simp only [if_false, Bool.false_eq_true]
      rw [ih (fun z hz => h z (List.mem_cons_of_mem y hz))]
    · rfl

theorem jsSort_congr (le₁ le₂ : α → α → Bool) (l : List α)
    (h : ∀ a ∈ l, ∀ b ∈ l, le₁ a b = le₂ a b) : jsSort le₁ l = jsSort le₂ l := by
  induction l with
  | nil => rfl
  | cons x xs ih =>
    simp only [jsSort]
    rw [ih (fun a ha b hb =>
      h a (List.mem_cons_of_mem x ha) b (List.mem_cons_of_mem x hb))]
    exact jsInsert_congr _ _ _ _ (fun y hy =>
      h x (List.mem_cons_self x xs) y
        (List.mem_cons_of_mem x ((mem_jsSort le₂ xs).mp hy)))

theorem mem_of_head?_eq {l : List α} {a : α} (h : l.head? = some a) : a ∈ l := by
  cases l with
  | nil => cases h
  | cons x xs =>
    have hx : x = a := by simpa using h
    subst hx
    exact List.mem_cons_self x xs

/-- On evaluations with finite scores, the viable-branch comparator agrees
with the descending-key comparator for the finite score value. -/
theorem scoreLe_eq_leBy {a b : Evaluation}
    (ha : isFin a.score = true) (hb : isFin b.score = true) :
    scoreLe a b = leBy (fun e => finVal e.score) a b := by
  cases hsa : a.score <;> cases hsb : b.score <;>
    simp_all [isFin, scoreLe, leBy, jsub, jsNonPos, finVal]

theorem firstBestBy_isSome {le : α → α → Bool} {l : List α} (h : l ≠ []) :
    ∃ y, firstBestBy le l = some y := by
  cases hb : firstBestBy le l with
  | none => exact absurd (firstBestBy_eq_none.mp hb) h
  | some y => exact ⟨y, rfl⟩

/-- The fields of a successful evaluation that the selection-level claims
need: its processor, the clamped settlement score, and what a true strict
check implies about the whitelist. -/
theorem evaluateProcessor_ok_spec {ps : List Processor} {rules : Rules}
    {p : Processor} {pay : Payment} {e : Evaluation}
    (h : evaluateProcessor ps rules p pay = .ok e) :
    e.processor = p ∧
    (0 ≤ e.settlement_score ∧ e.settlement_score ≤ 1) ∧
    (e.passesStrict = true → p.requires_whitelist = true →
      ∃ wl, pay.merchant.whitelisted_for = some wl ∧ wl.contains p.name = true) := by
  unfold evaluateProcessor at h
  cases hf : ps.find? (fun q => q.name == "Stripe") with
  | none =>
    rw [hf] at h
    cases h
  | some stripe =>
    rw [hf] at h
    have he := Except.ok.inj h
    subst he
    refine ⟨rfl, ⟨le_min (by norm_num) (le_max_left 0 _), min_le_left 1 _⟩, ?_⟩
    intro hpass hreq
    simp only [hreq, Bool.not_true, Bool.false_or, Bool.and_eq_true] at hpass
    cases hwl : pay.merchant.whitelisted_for with
    | none =>
      rw [hwl] at hpass
      cases hpass.2
    | some wl =>
      rw [hwl] at hpass
      exact ⟨wl, rfl, hpass.2⟩

/-- Every evaluation in a successful `map` over candidates is the
successful evaluation of some candidate. -/
theorem evalAll_ok_mem {ps : List Processor} {rules : Rules} {pay : Payment}
    {l : List Processor} {evals : List Evaluation}
    (h : evalAll ps rules pay l = .ok evals) :
    ∀ e ∈ evals, ∃ p ∈ l, evaluateProcessor ps rules p pay = .ok e := by
  induction l generalizing evals with
  | nil =>
    unfold evalAll at h
    have he := Except.ok.inj h
    subst he
    intro e he
    cases he
  | cons p rest ih =>
    unfold evalAll at h
    cases h1 : evaluateProcessor ps rules p pay with
    | error err =>
      rw [h1] at h
      cases h
    | ok ev =>
      rw [h1] at h
      cases h2 : evalAll ps rules pay rest with
      | error err =>
        rw [h2] at h
        cases h
      | ok evs =>
        rw [h2] at h
        have he := Except.ok.inj h
        subst he
        intro e hmem
        rcases List.mem_cons.mp hmem with hmem | hmem
        · exact ⟨p, List.mem_cons_self p rest, by rw [hmem]; exact h1⟩
        · obtain ⟨q, hq, hqe⟩ := ih h2 e hmem
          exact ⟨q, List.mem_cons_of_mem p hq, hqe⟩

/-- `decide` on the fallback branch: no strict passer, evaluations sorted
by success rate descending, first taken. -/
theorem decide_fallback_branch {ps : List Processor} {rules : Rules}
    {pay : Payment} {evals : List Evaluation} {x : Evaluation}
    (h : evaluationsOf ps rules pay = .ok evals)
    (hv : viableOf evals = [])
    (hx : firstBestBy fallbackLe evals = some x) :
    decide ps rules pay = .ok
      { chosen := x.processor.name,
        expected_net_cents :=
          jsRound (pay.amount_cents - ((feeAmountCents x.processor pay : ℤ) : ℚ)),
        details := x,
        reason := fallbackReason } := by
  unfold decide
  rw [h]
  simp only [hv, List.length_nil, ite_true, jsSort_head, hx]

/-- `decide` on the winning branch: at least one strict passer, the viable
evaluations sorted by score descending, first taken. -/
theorem decide_viable_branch {ps : List Processor} {rules : Rules}
    {pay : Payment} {evals : List Evaluation} {x : Evaluation}
    (h : evaluationsOf ps rules pay = .ok evals)
    (hv : viableOf evals ≠ [])
    (hx : firstBestBy scoreLe (viableOf evals) = some x) :
    decide ps rules pay = .ok
      { chosen := x.processor.name,
        expected_net_cents :=
          jsRound (pay.amount_cents - ((feeAmountCents x.processor pay : ℤ) : ℚ)),
        details := x,
        reason := scoreReason x.score } := by
  unfold decide
  rw [h]
  have hlen : (viableOf evals).length ≠ 0 := by
    simpa [List.length_eq_zero] using hv
  simp only [hlen, ite_false, jsSort_head, hx]

theorem firstBestBy_mem {le : α → α → Bool} {l : List α} {y : α}
    (h : firstBestBy le l = some y) : y ∈ l := by
  induction l generalizing y with
  | nil => cases h
  | cons x xs ih =>
    cases hb : firstBestBy le xs with
    | none =>
      simp only [firstBestBy, hb] at h
      have hxy : x = y := Option.some.inj h
      subst hxy
      exact List.mem_cons_self x xs
    | some b =>
      simp only [firstBestBy, hb] at h
      cases hle : le x b with
      | true =>
        rw [hle] at h
        simp only [if_true] at h
        have hxy : x = y := Option.some.inj h
        subst hxy
        exact List.mem_cons_self x xs
      | false =>
        rw [hle] at h
        simp only [Bool.false_eq_true, if_false] at h
        have hby : b = y := Option.some.inj h
        subst hby
        exact List.mem_cons_of_mem x (ih hb)

/-! The claims. -/

/-- C1: on Scenario A — catalog [Stripe, LocalProcessorA], the default rule
weights, a 1250-cent card payment with merchant cash-flow sensitivity 0.7 —
`decide` returns a decision choosing LocalProcessorA, with
`details.fee_cents = 56` and `expected_net_cents = 1194`. -/
theorem scenarioA_chooses_localProcessorA :
    (decide catalogA rulesDefault paymentA).map
      (fun d => (d.chosen, d.details.fee_cents, d.expected_net_cents)) =
    .ok ("LocalProcessorA", 56, 1194) := by
  with_unfolding_all rfl

/-- C2: with the default catalog and the unsupported payment method
`"wire"`, the candidate list is empty and `decide` crashes with the
`TypeError` of reading `.processor` off `undefined` — it raises no
`NoEligibleProcessorError` (no such error exists anywhere in the code). -/
theorem wire_method_throws_typeError :
    decide defaultProcessors rulesDefault wirePayment = .error .typeError := by
  with_unfolding_all rfl

/-- C9: `decide` is deterministic — two calls on identical (payment,
catalog, rules) snapshots produce identical decisions. -/
theorem decide_deterministic (ps₁ ps₂ : List Processor) (r₁ r₂ : Rules)
    (p₁ p₂ : Payment) (hps : ps₁ = ps₂) (hr : r₁ = r₂) (hp : p₁ = p₂) :
    decide ps₁ r₁ p₁ = decide ps₂ r₂ p₂ := by
  subst hps hr hp
  rfl

/-- Witness for C9 at the Scenario A snapshot. -/
theorem decide_deterministic_witness :
    decide catalogA rulesDefault paymentA = decide catalogA rulesDefault paymentA :=
  decide_deterministic catalogA catalogA rulesDefault rulesDefault paymentA paymentA
    rfl rfl rfl

/-- C7: for a non-negative amount, `feeAmountCents` equals round-half-up of
`amount_cents * fee_percentage + fee_flat_cents` with missing fields as 0,
and is non-negative whenever the fee fields are non-negative. -/
theorem feeAmountCents_contract (p : Processor) (pay : Payment)
    (hA : 0 ≤ pay.amount_cents) :
    feeAmountCents p pay =
      roundHalfUp (pay.amount_cents * p.fee_percentage.getD 0 + p.fee_flat_cents.getD 0) ∧
    (0 ≤ p.fee_percentage.getD 0 → 0 ≤ p.fee_flat_cents.getD 0 →
      0 ≤ feeAmountCents p pay) := by
  constructor
  · rfl
  · intro hp hf
    have hx : 0 ≤ pay.amount_cents * p.fee_percentage.getD 0 + p.fee_flat_cents.getD 0 :=
      add_nonneg (mul_nonneg hA hp) hf
    exact Int.le_floor.mpr (by push_cast; linarith)

/-- Witness for C7 at the Stripe processor and the Scenario A payment. -/
theorem feeAmountCents_contract_witness :
    (0 : ℚ) ≤ paymentA.amount_cents ∧
    (feeAmountCents procStripe paymentA =
      roundHalfUp (paymentA.amount_cents * procStripe.fee_percentage.getD 0
        + procStripe.fee_flat_cents.getD 0) ∧
     (0 ≤ procStripe.fee_percentage.getD 0 → 0 ≤ procStripe.fee_flat_cents.getD 0 →
       0 ≤ feeAmountCents procStripe paymentA)) :=
  ⟨by norm_num [paymentA], feeAmountCents_contract procStripe paymentA (by norm_num [paymentA])⟩

/-- C8: the settlement score of every successful evaluation lies in [0, 1]
(for a processor with non-negative settlement time, as claimed; the clamp
makes it hold regardless). -/
theorem settlement_score_unit_interval (ps : List Processor) (rules : Rules)
    (p : Processor) (pay : Payment) (e : Evaluation)
    (h : evaluateProcessor ps rules p pay = .ok e)
    (_hdays : 0 ≤ p.settlement_time_days) :
    0 ≤ e.settlement_score ∧ e.settlement_score ≤ 1 :=
  (evaluateProcessor_ok_spec h).2.1

/-- Witness for C8 at Stripe's Scenario A evaluation. -/
theorem settlement_score_unit_interval_witness :
    evaluateProcessor catalogA rulesDefault procStripe paymentA = .ok evalStripeA ∧
    (0 : ℚ) ≤ procStripe.settlement_time_days ∧
    (0 ≤ evalStripeA.settlement_score ∧ evalStripeA.settlement_score ≤ 1) :=
  ⟨by with_unfolding_all rfl, by norm_num [procStripe],
   settlement_score_unit_interval catalogA rulesDefault procStripe paymentA evalStripeA
     (by with_unfolding_all rfl) (by norm_num [procStripe])⟩

/-- C4 counterexample: with a zero-fee Stripe baseline, evaluating any
candidate with fee 0 (here Stripe itself) produces
`saving_pct_vs_stripe = NaN` and `score = NaN` — the saving is not
resolved to 0 and non-finite values propagate into the evaluation. -/
theorem baseline_zero_fee_nan_cex :
    (evaluateProcessor [zeroFeeStripe] rulesDefault zeroFeeStripe paymentA).map
      (fun e => (e.saving_pct_vs_stripe, e.score)) = .ok (JSNum.nan, JSNum.nan) := by
  with_unfolding_all rfl

/-- C4 amended: when the baseline (Stripe) fee is 0, `evaluateProcessor`
performs the raw division with no defined-zero policy: the resulting
`saving_pct_vs_stripe` is never a finite number (it is NaN when the
candidate fee is also 0, and a signed infinity otherwise). -/
theorem baseline_zero_fee_no_policy (ps : List Processor) (rules : Rules)
    (p : Processor) (pay : Payment) (s : Processor)
    (hs : ps.find? (fun q => q.name == "Stripe") = some s)
    (hfee : feeAmountCents s pay = 0) :
    ∃ e, evaluateProcessor ps rules p pay = .ok e ∧
      ∀ q : ℚ, e.saving_pct_vs_stripe ≠ JSNum.fin q := by
  unfold evaluateProcessor
  rw [hs]
  refine ⟨_, rfl, ?_⟩
  intro q
  simp only [hfee, Int.cast_zero]
  unfold jdiv
  split_ifs <;> simp_all

/-- Witness for the amended C4 at the zero-fee catalog. -/
theorem baseline_zero_fee_no_policy_witness :
    [zeroFeeStripe].find? (fun q => q.name == "Stripe") = some zeroFeeStripe ∧
    feeAmountCents zeroFeeStripe paymentA = 0 ∧
    ∃ e, evaluateProcessor [zeroFeeStripe] rulesDefault zeroFeeStripe paymentA = .ok e ∧
      ∀ q : ℚ, e.saving_pct_vs_stripe ≠ JSNum.fin q :=
  ⟨by with_unfolding_all rfl, by with_unfolding_all rfl,
   baseline_zero_fee_no_policy [zeroFeeStripe] rulesDefault zeroFeeStripe paymentA
     zeroFeeStripe (by with_unfolding_all rfl) (by with_unfolding_all rfl)⟩

/-- C3 counterexample: a whitelist-gated processor whose name is absent
from the merchant's whitelist IS chosen when no evaluation passes the
strict checks — the fallback ranks all evaluations, gated ones included. -/
theorem whitelist_fallback_cex :
    procGated.requires_whitelist = true ∧
    paymentA.merchant.whitelisted_for = none ∧
    procGated ∈ catalogGated ∧
    (decide catalogGated rulesDefault paymentA).map Decision.chosen = .ok "GatedFast" ∧
    procGated.name = "GatedFast" :=
  ⟨rfl, rfl, by simp [catalogGated], by with_unfolding_all rfl, rfl⟩

/-- C3 amended: whenever at least one evaluation passes the strict checks
(the viable path), the chosen processor's evaluation passes them, so a
whitelist-gated processor is chosen only if its name is on the merchant's
whitelist; on the fallback path (no strict passer) the exclusion does not
hold. -/
theorem whitelist_exclusion_viable_path (ps : List Processor) (rules : Rules)
    (pay : Payment) (evals : List Evaluation)
    (h : evaluationsOf ps rules pay = .ok evals)
    (hv : viableOf evals ≠ []) :
    ∃ d, decide ps rules pay = .ok d ∧
      d.chosen = d.details.processor.name ∧
      d.details.passesStrict = true ∧
      (d.details.processor.requires_whitelist = true →
        ∃ wl, pay.merchant.whitelisted_for = some wl ∧
          wl.contains d.details.processor.name = true) := by
  obtain ⟨w, hw⟩ := @firstBestBy_isSome _ scoreLe _ hv
  have hwv : w ∈ viableOf evals := firstBestBy_mem hw
  have hwf := List.mem_filter.mp hwv
  obtain ⟨p, hpmem, hpe⟩ := evalAll_ok_mem h w hwf.1
  obtain ⟨hproc, _, hwhite⟩ := evaluateProcessor_ok_spec hpe
  refine ⟨_, decide_viable_branch h hv hw, rfl, hwf.2, ?_⟩
  rw [hproc]
  exact hwhite hwf.2

/-- Witness for the amended C3 at Scenario A (viable path, ungated
winner). -/
theorem whitelist_exclusion_viable_path_witness :
    evaluationsOf catalogA rulesDefault paymentA = .ok evalsA ∧
    viableOf evalsA ≠ [] ∧
    ∃ d, decide catalogA rulesDefault paymentA = .ok d ∧
      d.chosen = d.details.processor.name ∧
      d.details.passesStrict = true ∧
      (d.details.processor.requires_whitelist = true →
        ∃ wl, paymentA.merchant.whitelisted_for = some wl ∧
          wl.contains d.details.processor.name = true) := by
  have hev : evaluationsOf catalogA rulesDefault paymentA = .ok evalsA := by
    with_unfolding_all rfl
  have hlen : (viableOf evalsA).length = 2 := by
    with_unfolding_all rfl
  have hv : viableOf evalsA ≠ [] := by
    intro hc
    rw [hc] at hlen
    cases hlen
  exact ⟨hev, hv, whitelist_exclusion_viable_path catalogA rulesDefault paymentA evalsA hev hv⟩

/-- C5: when no evaluation passes the strict checks but the candidate list
is non-empty, `decide` returns the evaluation with the maximum
`processor.success_rate` among all evaluations and the fallback reason
string; in particular Scenario B (min_success_rate raised to 0.99) chooses
Stripe. -/
theorem fallback_highest_success_rate :
    (∀ (ps : List Processor) (rules : Rules) (pay : Payment) (evals : List Evaluation),
      evaluationsOf ps rules pay = .ok evals →
      viableOf evals = [] → evals ≠ [] →
      ∃ d, decide ps rules pay = .ok d ∧
        d.reason = fallbackReason ∧
        d.details ∈ evals ∧
        d.chosen = d.details.processor.name ∧
        ∀ e ∈ evals, e.processor.success_rate ≤ d.details.processor.success_rate) ∧
    (decide catalogA rulesB paymentA).map Decision.chosen = .ok "Stripe" := by
  constructor
  · intro ps rules pay evals h hv hne
    obtain ⟨w, hw⟩ := @firstBestBy_isSome _ fallbackLe _ hne
    have hw2 : firstBestBy (leBy fun e => e.processor.success_rate) evals = some w := hw
    obtain ⟨hmax, l₁, l₂, heq, _⟩ :=
      firstBestBy_leBy_spec (fun e => e.processor.success_rate) evals w hw2
    refine ⟨_, decide_fallback_branch h hv hw, rfl, ?_, rfl, hmax⟩
    rw [heq]
    exact List.mem_append_right _ (List.mem_cons_self _ _)
  · with_unfolding_all rfl

/-- Witness for C5 at Scenario B. -/
theorem fallback_highest_success_rate_witness :
    evaluationsOf catalogA rulesB paymentA = .ok evalsB ∧
    viableOf evalsB = [] ∧ evalsB ≠ [] ∧
    ∃ d, decide catalogA rulesB paymentA = .ok d ∧
      d.reason = fallbackReason ∧
      d.details ∈ evalsB ∧
      d.chosen = d.details.processor.name ∧
      ∀ e ∈ evalsB, e.processor.success_rate ≤ d.details.processor.success_rate := by
  have hev : evaluationsOf catalogA rulesB paymentA = .ok evalsB := by
    with_unfolding_all rfl
  have hviable : viableOf evalsB = [] := by
    with_unfolding_all rfl
  have hlen : evalsB.length = 2 := by
    with_unfolding_all rfl
  have hne : evalsB ≠ [] := by
    intro hc
    rw [hc] at hlen
    cases hlen
  exact ⟨hev, hviable, hne,
    fallback_highest_success_rate.1 catalogA rulesB paymentA evalsB hev hviable hne⟩

/-- C6: ties are broken by original catalog order — on the viable path (for
finite scores) the winner is the first occurrence of the maximal score, and
on the fallback path the first occurrence of the maximal success rate:
everything placed before the winner is strictly worse. -/
theorem tie_break_first_in_catalog :
    (∀ (ps : List Processor) (rules : Rules) (pay : Payment) (evals : List Evaluation),
      evaluationsOf ps rules pay = .ok evals →
      viableOf evals ≠ [] →
      (∀ e ∈ viableOf evals, isFin e.score = true) →
      ∃ d, decide ps rules pay = .ok d ∧
        d.details ∈ viableOf evals ∧
        (∀ e ∈ viableOf evals, finVal e.score ≤ finVal d.details.score) ∧
        ∃ l₁ l₂, viableOf evals = l₁ ++ d.details :: l₂ ∧
          ∀ e ∈ l₁, finVal e.score < finVal d.details.score) ∧
    (∀ (ps : List Processor) (rules : Rules) (pay : Payment) (evals : List Evaluation),
      evaluationsOf ps rules pay = .ok evals →
      viableOf evals = [] → evals ≠ [] →
      ∃ d, decide ps rules pay = .ok d ∧
        d.details ∈ evals ∧
        (∀ e ∈ evals, e.processor.success_rate ≤ d.details.processor.success_rate) ∧
        ∃ l₁ l₂, evals = l₁ ++ d.details :: l₂ ∧
          ∀ e ∈ l₁, e.processor.success_rate < d.details.processor.success_rate) := by
  constructor
  · intro ps rules pay evals h hv hfin
    have hcong : jsSort scoreLe (viableOf evals)
        = jsSort (leBy fun e => finVal e.score) (viableOf evals) :=
      jsSort_congr _ _ _ (fun a ha b hb => scoreLe_eq_leBy (hfin a ha) (hfin b hb))
    have hfb : firstBestBy scoreLe (viableOf evals)
        = firstBestBy (leBy fun e => finVal e.score) (viableOf evals) := by
      rw [← jsSort_head, ← jsSort_head, hcong]
    obtain ⟨w, hw⟩ := @firstBestBy_isSome _ scoreLe _ hv
    have hw2 : firstBestBy (leBy fun e => finVal e.score) (viableOf evals) = some w := by
      rw [← hfb]
      exact hw
    obtain ⟨hmax, l₁, l₂, heq, hlt⟩ :=
      firstBestBy_leBy_spec (fun e => finVal e.score) (viableOf evals) w hw2
    refine ⟨_, decide_viable_branch h hv hw, ?_, hmax, l₁, l₂, heq, hlt⟩
    rw [heq]
    exact List.mem_append_right _ (List.mem_cons_self _ _)
  · intro ps rules pay evals h hv hne
    obtain ⟨w, hw⟩ := @firstBestBy_isSome _ fallbackLe _ hne
    have hw2 : firstBestBy (leBy fun e => e.processor.success_rate) evals = some w := hw
    obtain ⟨hmax, l₁, l₂, heq, hlt⟩ :=
      firstBestBy_leBy_spec (fun e => e.processor.success_rate) evals w hw2
    refine ⟨_, decide_fallback_branch h hv hw, ?_, hmax, l₁, l₂, heq, hlt⟩
    rw [heq]
    exact List.mem_append_right _ (List.mem_cons_self _ _)

/-- Witness for C6 at a catalog with two identically-scoring processors
(LocalProcessorA and its clone): the earlier catalog entry wins. -/
theorem tie_break_first_in_catalog_witness :
    evaluationsOf catalogTie rulesDefault paymentA = .ok evalsT ∧
    viableOf evalsT ≠ [] ∧
    (∀ e ∈ viableOf evalsT, isFin e.score = true) ∧
    (decide catalogTie rulesDefault paymentA).map Decision.chosen = .ok "LocalProcessorA" ∧
    ∃ d, decide catalogTie rulesDefault paymentA = .ok d ∧
      d.details ∈ viableOf evalsT ∧
      (∀ e ∈ viableOf evalsT, finVal e.score ≤ finVal d.details.score) ∧
      ∃ l₁ l₂, viableOf evalsT = l₁ ++ d.details :: l₂ ∧
        ∀ e ∈ l₁, finVal e.score < finVal d.details.score := by
  have hev : evaluationsOf catalogTie rulesDefault paymentA = .ok evalsT := by
    with_unfolding_all rfl
  have hlen : (viableOf evalsT).length = 3 := by
    with_unfolding_all rfl
  have hv : viableOf evalsT ≠ [] := by
    intro hc
    rw [hc] at hlen
    cases hlen
  have hall : (viableOf evalsT).all (fun e => isFin e.score) = true := by
    with_unfolding_all rfl
  have hfin : ∀ e ∈ viableOf evalsT, isFin e.score = true := List.all_eq_true.mp hall
  refine ⟨hev, hv, hfin, by with_unfolding_all rfl,
    tie_break_first_in_catalog.1 catalogTie rulesDefault paymentA evalsT hev hv hfin⟩

end Orchestrator

